import Mathlib

/-!
# Verification of the reth backfill executor and chain orchestrator

A shallow embedding of `crates/exex/exex/src/backfill/job.rs` (the multi-block
`BackfillJob` and the `SingleBlockBackfillJob`) and, modelled from the
specification, the chain-orchestrator state machine wrapped by
`crates/engine/service/src/service.rs`.

Machine integers (`u64` block numbers, gas counters) are modelled as `Nat`:
block numbers and gas totals in these code paths never wrap (the code itself
uses `saturating_sub` for the single possible underflow). Wall-clock readings
(`Instant::now` / `batch_start.elapsed()`) are modelled by an explicit `clock`
argument: `clock k` is the elapsed duration observed by the code right after
the `k`-th block of the current batch has been executed. State snapshots and
per-block execution results are abstract type parameters `St` and `Res`; the
EVM itself is external to this crate and enters only through the
`ConfigureEvm`-style record `EvmConfig`.
-/

namespace BackfillProof

/-- Equality of `Except` values is decidable when both component types have
decidable equality (used to evaluate witnesses on concrete models). -/
instance {ε α : Type} [DecidableEq ε] [DecidableEq α] : DecidableEq (Except ε α) := fun x y =>
  match x, y with
  | .ok a, .ok b => if h : a = b then .isTrue (by rw [h]) else .isFalse (by simp [h])
  | .error a, .error b => if h : a = b then .isTrue (by rw [h]) else .isFalse (by simp [h])
  | .ok _, .error _ => .isFalse (by simp)
  | .error _, .ok _ => .isFalse (by simp)

/-- A sealed block with recovered senders, as far as the backfill code
inspects it: its number, its gas used (read by the cumulative-gas threshold)
and an abstract transaction payload. -/
structure Block where
  number : Nat
  gasUsed : Nat
  txs : List Nat
deriving Repr, DecidableEq

/-- Provider-level failures (`reth_provider::ProviderError`): the
`HeaderNotFound` contiguity violation, and all other lookup failures
collapsed into an abstract code. -/
inductive ProviderError where
  | headerNotFound : Nat → ProviderError
  | database : Nat → ProviderError
deriving Repr, DecidableEq

/-- Embeds `reth_evm::execute::BlockExecutionError`. Provider failures are wrapped
with `BlockExecutionError::other` in the source; `evm` is an EVM-level
failure executing a block. `panicEmptyBatch` models the
panic on the expect of a non-empty block list in `execute_range`, reachable
only if the loop body never ran (i.e. only on an empty range). -/
inductive BlockExecutionError where
  | other : ProviderError → BlockExecutionError
  | evm : Nat → BlockExecutionError
  | panicEmptyBatch : BlockExecutionError
deriving Repr, DecidableEq

/-- The slice of the `ConfigureEvm` / `Executor` contract the backfill job
uses: a deterministic single-block step on executor states, and the
in-memory size hint of the executor. `executeOne b st` returns the per-block
execution result (receipts) together with the post-execution executor
state. -/
structure EvmConfig (St Res : Type) where
  executeOne : Block → St → Except BlockExecutionError (Res × St)
  sizeHint : St → Nat

/-- The slice of the provider contract the backfill job uses
(`StateProviderFactory::history_by_block_number`,
`BlockReader::sealed_block_with_senders`, `BlockReader::recovered_block`).
A `.ok none` from a block lookup means the block is absent. -/
structure Provider (St : Type) where
  history_by_block_number : Nat → Except ProviderError St
  sealed_block_with_senders : Nat → Except ProviderError (Option Block)
  recovered_block : Nat → Except ProviderError (Option Block)

/-- Modelled from the spec: `ExecutionStageThresholds` lives in
`reth_stages_api`, which is not among the provided sources. Per §3 of the
spec it is a configuration of max blocks, max cumulative gas, max
wall-clock duration and max in-memory executor size, any one being exceeded
ends the current batch, and the max-blocks-equal-1 scenario of §8 (two
one-block segments over a two-block range) fixes the comparison as reached, i.e. a
limit trips once the accumulator is at least the configured maximum. -/
structure ExecutionStageThresholds where
  max_blocks : Option Nat
  max_changes : Option Nat
  max_cumulative_gas : Option Nat
  max_duration : Option Nat
deriving Repr, DecidableEq

/-- Modelled from the spec (see `ExecutionStageThresholds`): whether any
configured limit has been reached by the accumulators sampled after the
latest block execution. -/
def ExecutionStageThresholds.is_end_of_batch (t : ExecutionStageThresholds)
    (blocks_processed changes_processed cumulative_gas_used elapsed : Nat) : Bool :=
  t.max_blocks.any (fun m => decide (m ≤ blocks_processed)) ||
  t.max_changes.any (fun m => decide (m ≤ changes_processed)) ||
  t.max_cumulative_gas.any (fun m => decide (m ≤ cumulative_gas_used)) ||
  t.max_duration.any (fun m => decide (m ≤ elapsed))

/-- The accumulated bundle of an executor run: the snapshot the executor was
created from and the state it ended in (`into_state().take_bundle()`
materialises exactly this difference). -/
structure Bundle (St : Type) where
  init : St
  final : St
deriving Repr, DecidableEq

/-- Embeds `reth_evm::execute::BlockExecutionOutput`: the one-block bundle plus the
execution result of the block. -/
structure BlockExecutionOutput (St Res : Type) where
  state : Bundle St
  result : Res
deriving Repr, DecidableEq

/-- Embeds `reth_provider::ExecutionOutcome` as built by
`ExecutionOutcome::from_blocks`: first block number, accumulated bundle, and
the ordered per-block results. -/
structure ExecutionOutcome (St Res : Type) where
  first_block : Nat
  bundle : Bundle St
  results : List Res
deriving Repr, DecidableEq

/-- Embeds `reth_provider::Chain`: the executed blocks of one committed batch plus
their combined `ExecutionOutcome`. -/
structure Chain (St Res : Type) where
  blocks : List Block
  outcome : ExecutionOutcome St Res
deriving Repr, DecidableEq

/-- Number of the first block of a chain (0 if empty, unreachable for
yielded chains). -/
def Chain.first_number {St Res : Type} (c : Chain St Res) : Nat :=
  ((c.blocks.head?).map Block.number).getD 0

/-- Number of the last block of a chain (0 if empty, unreachable for
yielded chains). -/
def Chain.last_number {St Res : Type} (c : Chain St Res) : Nat :=
  ((c.blocks.getLast?).map Block.number).getD 0

/-- Embeds `BackfillJob`: the multi-block batching job. `range = (s, e)` models the
`RangeInclusive` `s..=e`; it is empty exactly when `e < s`. `prune_modes` is
carried configuration never read by the iterator logic shown and is
omitted. -/
structure BackfillJob (St Res : Type) where
  evm_config : EvmConfig St Res
  provider : Provider St
  thresholds : ExecutionStageThresholds
  range : Nat × Nat
  stream_parallelism : Nat

/-- Embeds `SingleBlockBackfillJob`: one executed block per iterator step. Note it
carries no thresholds field, exactly as in the source. -/
structure SingleBlockBackfillJob (St Res : Type) where
  evm_config : EvmConfig St Res
  provider : Provider St
  range : Nat × Nat
  stream_parallelism : Nat

variable {St Res : Type}

/-- Embeds `impl From<BackfillJob> for SingleBlockBackfillJob` and
`BackfillJob::into_single_blocks`: carries over configuration and the
remaining range. -/
def BackfillJob.into_single_blocks (j : BackfillJob St Res) : SingleBlockBackfillJob St Res :=
  ⟨j.evm_config, j.provider, j.range, j.stream_parallelism⟩

/-- The `for block_number in self.range.clone()` loop body of
`BackfillJob::execute_range`, lines 91–134 of `job.rs`: fetch the sealed
block with senders (absence is `HeaderNotFound`), add its gas to the
cumulative counter, execute it against the shared executor, push the result
and the block, then ask `is_end_of_batch` whether to stop. `range_start` is
`*self.range.start()`; `bns` is the list of remaining block numbers;
accumulators are the `blocks` and `results` vectors. Returns the final
accumulators and the executor state. -/
def execBatchLoop (evm : EvmConfig St Res) (p : Provider St)
    (t : ExecutionStageThresholds) (range_start : Nat) (clock : Nat → Nat) :
    List Nat → St → Nat → List Block → List Res →
    Except BlockExecutionError (List Block × List Res × St)
  | [], st, _gas, blocks, results => .ok (blocks, results, st)
  | bn :: rest, st, gas, blocks, results =>
    match p.sealed_block_with_senders bn with
    | .error e => .error (.other e)
    | .ok none => .error (.other (.headerNotFound bn))
    | .ok (some block) =>
      match evm.executeOne block st with
      | .error e => .error e
      | .ok (res, st') =>
        if t.is_end_of_batch (bn - range_start + 1) (evm.sizeHint st')
            (gas + block.gasUsed) (clock (bn - range_start + 1)) then
          .ok (blocks ++ [block], results ++ [res], st')
        else
          execBatchLoop evm p t range_start clock rest st' (gas + block.gasUsed)
            (blocks ++ [block]) (results ++ [res])

/-- Embeds `BackfillJob::execute_range` (`job.rs` lines 71–155): obtain the parent
state snapshot as of `range.start - 1` (`saturating_sub`, which `Nat`
subtraction already is), run the batch loop over the whole remaining range,
then build the `ExecutionOutcome` anchored at the first executed block and
advance `range` past the last executed block. Returns the yielded chain
together with the job as mutated by the call; errors leave the job
untouched, mirroring that `self.range` is only assigned on the success
path. -/
def BackfillJob.execute_range (j : BackfillJob St Res) (clock : Nat → Nat) :
    Except BlockExecutionError (Chain St Res × BackfillJob St Res) :=
  match j.provider.history_by_block_number (j.range.1 - 1) with
  | .error e => .error (.other e)
  | .ok st0 =>
    match execBatchLoop j.evm_config j.provider j.thresholds j.range.1 clock
        (List.range' j.range.1 (j.range.2 + 1 - j.range.1)) st0 0 [] [] with
    | .error e => .error e
    | .ok (blocks, results, stF) =>
      match blocks.getLast? with
      | none => .error .panicEmptyBatch
      | some lastBlock =>
        .ok (⟨blocks, ⟨((blocks.head?).map Block.number).getD 0, ⟨st0, stF⟩, results⟩⟩,
          { j with range := (lastBlock.number + 1, j.range.2) })

/-- Embeds `<BackfillJob as Iterator>::next` (`job.rs` lines 47–53): `None` when
the range is empty, otherwise the result of `execute_range`. The second
component is the job after the call (the Rust `&mut self`). -/
def BackfillJob.next (j : BackfillJob St Res) (clock : Nat → Nat) :
    Option (Except BlockExecutionError (Chain St Res)) × BackfillJob St Res :=
  if j.range.2 < j.range.1 then (none, j)
  else
    match j.execute_range clock with
    | .ok (chain, j') => (some (.ok chain), j')
    | .error e => (some (.error e), j)

/-- Embeds `SingleBlockBackfillJob::execute_block` (`job.rs` lines 202–229): fetch
the recovered block (absence is `HeaderNotFound`), build a fresh executor on
the parent state snapshot as of `block_number - 1`, execute the single
block, and return the block with its `BlockExecutionOutput`. Takes `&self`:
no job state is read or written beyond configuration. -/
def SingleBlockBackfillJob.execute_block (sj : SingleBlockBackfillJob St Res)
    (block_number : Nat) :
    Except BlockExecutionError (Block × BlockExecutionOutput St Res) :=
  match sj.provider.recovered_block block_number with
  | .error e => .error (.other e)
  | .ok none => .error (.other (.headerNotFound block_number))
  | .ok (some block_with_senders) =>
    match sj.provider.history_by_block_number (block_number - 1) with
    | .error e => .error (.other e)
    | .ok st0 =>
      match sj.evm_config.executeOne block_with_senders st0 with
      | .error e => .error e
      | .ok (res, st1) => .ok (block_with_senders, ⟨⟨st0, st1⟩, res⟩)

/-- Embeds `<SingleBlockBackfillJob as Iterator>::next` (`job.rs` lines 180–183):
`self.range.next()` consumes the next block number — advancing the range
before the result of `execute_block` is even inspected — and maps it through
`execute_block`. -/
def SingleBlockBackfillJob.next (sj : SingleBlockBackfillJob St Res) :
    Option (Except BlockExecutionError (Block × BlockExecutionOutput St Res)) ×
      SingleBlockBackfillJob St Res :=
  if sj.range.2 < sj.range.1 then (none, sj)
  else (some (sj.execute_block sj.range.1), { sj with range := (sj.range.1 + 1, sj.range.2) })

/-- Driving the multi-block job to completion with `fuel` pulls, collecting
the yielded items; iteration stops at `None` and, for this harness, after a
yielded error (the caller owns retry policy). -/
def runJob : Nat → BackfillJob St Res → (Nat → Nat) →
    List (Except BlockExecutionError (Chain St Res))
  | 0, _, _ => []
  | fuel + 1, j, clock =>
    match j.next clock with
    | (none, _) => []
    | (some (.ok c), j') => .ok c :: runJob fuel j' clock
    | (some (.error e), _) => [.error e]

/-- The first and last block numbers of each successfully yielded chain: the
batch partition of a run. -/
def batchSpans (items : List (Except BlockExecutionError (Chain St Res))) :
    List (Nat × Nat) :=
  items.filterMap fun it =>
    match it with
    | .ok c => some (c.first_number, c.last_number)
    | .error _ => none

/-- Relation `ChainedExec evm st bs rs stF`: executing the blocks `bs` in order from
executor state `st` succeeds, produces exactly the results `rs`, and ends in
state `stF` — the trace of one batch of the shared executor. -/
inductive ChainedExec (evm : EvmConfig St Res) : St → List Block → List Res → St → Prop where
  | nil : ∀ st, ChainedExec evm st [] [] st
  | cons : ∀ {st st1 stF : St} {b : Block} {r : Res} {bs : List Block} {rs : List Res},
      evm.executeOne b st = .ok (r, st1) →
      ChainedExec evm st1 bs rs stF →
      ChainedExec evm st (b :: bs) (r :: rs) stF

/-! ## Concrete finite models used to witness the theorems -/

/-- A concrete block of the demo chain: number `n`, gas 100, no payload. -/
def demoBlock (n : Nat) : Block := ⟨n, 100, []⟩

/-- The demo world state after executing blocks `1..n` (states are plain
naturals; executing block `n` on state `st` moves to `st * 10 + n`). -/
def demoState : Nat → Nat
  | 0 => 0
  | n + 1 => demoState n * 10 + (n + 1)

/-- A concrete deterministic EVM on `Nat` states and `Nat` results: the
result of a block is `st + number`, the post-state `st * 10 + number`. -/
def demoEvm : EvmConfig Nat Nat where
  executeOne := fun b st => .ok (st + b.number, st * 10 + b.number)
  sizeHint := fun _ => 0

/-- A provider holding blocks 1–3 whose historical states are exactly the
`demoEvm` execution states — a consistent store. -/
def demoProvider : Provider Nat where
  history_by_block_number := fun n =>
    if n ≤ 3 then .ok (demoState n) else .error (.database 0)
  sealed_block_with_senders := fun n =>
    if 1 ≤ n ∧ n ≤ 3 then .ok (some (demoBlock n)) else .ok none
  recovered_block := fun n =>
    if 1 ≤ n ∧ n ≤ 3 then .ok (some (demoBlock n)) else .ok none

/-- Thresholds with every limit disabled (the `Default` of the source). -/
def noThresholds : ExecutionStageThresholds := ⟨none, none, none, none⟩

/-- A wall clock that never advances. -/
def fastClock : Nat → Nat := fun _ => 0

/-- A wall clock on a slow machine: 10 time units have always elapsed. -/
def slowClock : Nat → Nat := fun _ => 10

/-- Demo multi-block job over the single-block range `1..=1`, no limits. -/
def demoJob : BackfillJob Nat Nat := ⟨demoEvm, demoProvider, noThresholds, (1, 1), 1⟩

/-- The chain `demoJob` yields: block 1, result `0 + 1`, bundle `0 ↝ 1`. -/
def demoChain : Chain Nat Nat := ⟨[demoBlock 1], ⟨1, ⟨0, 1⟩, [1]⟩⟩

/-- State of `demoJob` after its successful pull: range advanced past block 1. -/
def demoJobAfter : BackfillJob Nat Nat := ⟨demoEvm, demoProvider, noThresholds, (2, 1), 1⟩

/-- A job whose thresholds trip on every block (`max_blocks = 1`, and a gas
limit of 1 that the very first 100-gas block already exceeds). -/
def tripJob : BackfillJob Nat Nat :=
  ⟨demoEvm, demoProvider, ⟨some 1, none, some 1, none⟩, (1, 2), 1⟩

/-- The first chain `tripJob` yields: exactly the one tripping block. -/
def tripChain : Chain Nat Nat := ⟨[demoBlock 1], ⟨1, ⟨0, 1⟩, [1]⟩⟩

/-- A provider with historical state but no blocks at all. -/
def errProvider : Provider Nat where
  history_by_block_number := fun n => .ok n
  sealed_block_with_senders := fun _ => .ok none
  recovered_block := fun _ => .ok none

/-- A multi-block job over `1..=5` against `errProvider`: the very first
fetch fails with `HeaderNotFound`. -/
def errJob : BackfillJob Nat Nat := ⟨demoEvm, errProvider, noThresholds, (1, 5), 1⟩

/-- The single-block shape of the failing job. -/
def errSingleJob : SingleBlockBackfillJob Nat Nat := ⟨demoEvm, errProvider, (1, 5), 1⟩

/-- A provider whose state history is unavailable everywhere. -/
def histErrProvider : Provider Nat where
  history_by_block_number := fun _ => .error (.database 7)
  sealed_block_with_senders := fun n =>
    if 1 ≤ n ∧ n ≤ 3 then .ok (some (demoBlock n)) else .ok none
  recovered_block := fun n =>
    if 1 ≤ n ∧ n ≤ 3 then .ok (some (demoBlock n)) else .ok none

/-- A job whose parent-state snapshot lookup fails. -/
def histErrJob : BackfillJob Nat Nat := ⟨demoEvm, histErrProvider, noThresholds, (1, 3), 1⟩

/-- Job over `1..=2` with only a wall-clock limit of 5 time units. -/
def durJob : BackfillJob Nat Nat :=
  ⟨demoEvm, demoProvider, ⟨none, none, none, some 5⟩, (1, 2), 1⟩

/-- Job over `1..=2` with every limit disabled. -/
def noDurJob : BackfillJob Nat Nat := ⟨demoEvm, demoProvider, noThresholds, (1, 2), 1⟩

/-! ## The chain orchestrator, modelled from the spec

`service.rs` only assembles the `ChainOrchestrator` with its two adapters
(`EngineHandler` for live sync, `PipelineSync` for backfill) and forwards
`poll_next` to it; the orchestrator implementation itself
(`reth_engine_tree::chain`) is not among the provided sources, so the state
machine below is modelled from §2, §4.1 and §8 of the spec. -/

/-- Modelled from the spec: what one poll of the live Engine Handler adapter
reports to the orchestrator — ordinary live progress, or the explicit need-backfill signal of §4.2 when the missing-ancestor gap is too large. -/
inductive LiveEvent where
  | event : LiveEvent
  | needBackfill : LiveEvent
deriving Repr, DecidableEq

/-- Modelled from the spec: what one poll of the Pipeline Sync adapter
reports — progress on the range, or completion of the target range. -/
inductive PipeEvent where
  | progress : PipeEvent
  | finished : PipeEvent
deriving Repr, DecidableEq

/-- Modelled from the spec (§3): the sync mode, exactly one of Live and
Backfill at any instant, owned by the orchestrator. -/
inductive SyncMode where
  | live : SyncMode
  | backfilling : SyncMode
deriving Repr, DecidableEq

/-- Which of the two adapters a poll step drove. -/
inductive PolledAdapter where
  | engineHandler : PolledAdapter
  | pipelineSync : PolledAdapter
deriving Repr, DecidableEq

/-- Modelled from the spec: the state of the orchestrator — its mode plus the
scripted outputs the two adapters will report on successive polls (the
adapters are external collaborators; scripting their reports is the scripted-test device of §8). -/
structure Orchestrator where
  mode : SyncMode
  liveQueue : List LiveEvent
  pipeQueue : List PipeEvent
deriving Repr, DecidableEq

/-- Modelled from the spec (§4.1): one poll of the Chain Orchestrator. It
polls exactly the adapter of its current mode — never the other, whose
queue it does not touch: in `Live` mode a `needBackfill` report switches to
`Backfilling`; in `Backfilling` mode a `finished` report switches back to
`Live`. Returns which adapter was polled and the successor state. -/
def orchStep (o : Orchestrator) : PolledAdapter × Orchestrator :=
  match o.mode with
  | .live =>
    (.engineHandler,
      match o.liveQueue with
      | [] => o
      | .event :: rest => { o with liveQueue := rest }
      | .needBackfill :: rest => { o with mode := .backfilling, liveQueue := rest })
  | .backfilling =>
    (.pipelineSync,
      match o.pipeQueue with
      | [] => o
      | .progress :: rest => { o with pipeQueue := rest }
      | .finished :: rest => { o with mode := .live, pipeQueue := rest })

/-- The modes observed after each of `n` successive polls. -/
def modeTrace : Nat → Orchestrator → List SyncMode
  | 0, _ => []
  | n + 1, o => ((orchStep o).2).mode :: modeTrace n (orchStep o).2

/-- Number of `src → dst` transitions along a mode trace started from a
given current mode. -/
def countSwitches (src dst : SyncMode) : SyncMode → List SyncMode → Nat
  | _, [] => 0
  | cur, m :: ms =>
    (if cur = src ∧ m = dst then 1 else 0) + countSwitches src dst m ms

/-- The §8 forced-gap scenario: the live adapter reports `a` ordinary events,
then detects a gap, and after backfilling completes (`b` progress reports and
one completion) reports `c` more live events. -/
def gapScript (a b c : Nat) : Orchestrator :=
  ⟨.live, List.replicate a .event ++ .needBackfill :: List.replicate c .event,
    List.replicate b .progress ++ [.finished]⟩

/-! ## Supporting lemmas -/

/-- A chained execution produces exactly one result per block. -/
theorem ChainedExec.length_eq {evm : EvmConfig St Res} {st stF : St}
    {bs : List Block} {rs : List Res} (h : ChainedExec evm st bs rs stF) :
    rs.length = bs.length := by
  induction h with
  | nil => rfl
  | cons _ _ ih => simpa using ih

/-- Characterisation of a successful batch loop over the contiguous block
numbers `n0, n0+1, …`: the accumulators are extended by some non-empty
(when the range is) prefix of blocks, the `k`-th of which was fetched at
number `n0 + k`, and the executor state evolves along them as a chained
execution. -/
theorem execBatchLoop_ok (evm : EvmConfig St Res) (p : Provider St)
    (t : ExecutionStageThresholds) (s : Nat) (clock : Nat → Nat) :
    ∀ (cnt n0 : Nat) (st : St) (gas : Nat) (accB : List Block) (accR : List Res)
      (blocks : List Block) (results : List Res) (stF : St),
      execBatchLoop evm p t s clock (List.range' n0 cnt) st gas accB accR
        = .ok (blocks, results, stF) →
      ∃ nb nr,
        blocks = accB ++ nb ∧ results = accR ++ nr ∧
        nb.length ≤ cnt ∧
        (∀ k (hk : k < nb.length),
          p.sealed_block_with_senders (n0 + k) = .ok (some (nb.get ⟨k, hk⟩))) ∧
        ChainedExec evm st nb nr stF ∧
        (0 < cnt → nb ≠ []) := by
  intro cnt
  induction cnt with
  | zero =>
    intro n0 st gas accB accR blocks results stF h
    simp only [List.range', execBatchLoop, Except.ok.injEq, Prod.mk.injEq] at h
    obtain ⟨h1, h2, h3⟩ := h
    exact ⟨[], [], by simp [h1.symm], by simp [h2.symm], by simp,
      fun k hk => absurd hk (by simp), h3 ▸ ChainedExec.nil st, by simp⟩
  | succ cnt ih =>
    intro n0 st gas accB accR blocks results stF h
    rw [List.range'_succ] at h
    simp only [execBatchLoop] at h
    split at h
    · exact absurd h (by simp)
    · exact absurd h (by simp)
    · rename_i block hseal
      split at h
      · exact absurd h (by simp)
      · rename_i res st' hexec
        split at h
        · simp only [Except.ok.injEq, Prod.mk.injEq] at h
          obtain ⟨h1, h2, h3⟩ := h
          refine ⟨[block], [res], by simp [h1.symm], by simp [h2.symm], by simp, ?_,
            h3 ▸ ChainedExec.cons hexec (ChainedExec.nil st'), by simp⟩
          intro k hk
          have hk0 : k = 0 := Nat.lt_one_iff.mp (by simpa using hk)
          subst hk0
          simpa using hseal
        · obtain ⟨nb', nr', h1, h2, hlen, hsl, hch, -⟩ :=
            ih (n0 + 1) st' (gas + block.gasUsed) (accB ++ [block]) (accR ++ [res])
              blocks results stF h
          refine ⟨block :: nb', res :: nr', by simp [h1], by simp [h2],
            by simpa using Nat.succ_le_succ hlen, ?_,
            ChainedExec.cons hexec hch, by simp⟩
          intro k hk
          match k with
          | 0 => simpa using hseal
          | k + 1 =>
            have hk' : k < nb'.length := by simpa using hk
            have := hsl k hk'
            have harith : n0 + (k + 1) = n0 + 1 + k := by omega
            rw [harith]
            simpa using this

/-- Characterisation of a successful `execute_range` call: the parent
snapshot was read at `range.start - 1` and became the base of the bundle, the
yielded blocks are a non-empty chained execution fetched at the contiguous
numbers `range.start + k`, the outcome is anchored at the first block, and
the range of the job was advanced past the last yielded block (nothing else of
the job changed). -/
theorem BackfillJob.execute_range_ok_spec {j : BackfillJob St Res} {clock : Nat → Nat}
    {chain : Chain St Res} {j' : BackfillJob St Res}
    (h : j.execute_range clock = .ok (chain, j')) :
    ∃ st0 stF,
      j.provider.history_by_block_number (j.range.1 - 1) = .ok st0 ∧
      chain.outcome.bundle = ⟨st0, stF⟩ ∧
      ChainedExec j.evm_config st0 chain.blocks chain.outcome.results stF ∧
      chain.blocks ≠ [] ∧
      chain.blocks.length ≤ j.range.2 + 1 - j.range.1 ∧
      (∀ k (hk : k < chain.blocks.length),
        j.provider.sealed_block_with_senders (j.range.1 + k)
          = .ok (some (chain.blocks.get ⟨k, hk⟩))) ∧
      chain.outcome.first_block = chain.first_number ∧
      j' = { j with range := (chain.last_number + 1, j.range.2) } := by
  unfold BackfillJob.execute_range at h
  split at h
  · exact absurd h (by simp)
  · rename_i st0 hhist
    split at h
    · exact absurd h (by simp)
    · rename_i triple blocks results stF hloop
      split at h
      · exact absurd h (by simp)
      · rename_i lastBlock hlast
        simp only [Except.ok.injEq, Prod.mk.injEq] at h
        obtain ⟨hchain, hj'⟩ := h
        obtain ⟨nb, nr, hb, hr, hlen, hsl, hch, -⟩ :=
          execBatchLoop_ok j.evm_config j.provider j.thresholds j.range.1 clock
            (j.range.2 + 1 - j.range.1) j.range.1 st0 0 [] [] blocks results stF hloop
        simp only [List.nil_append] at hb hr
        subst hb hr
        subst hchain hj'
        have hne : blocks ≠ [] := by
          intro hemp
          rw [hemp] at hlast
          exact absurd hlast (by simp)
        have hlastnum :
            Chain.last_number
              (⟨blocks, ⟨((blocks.head?).map Block.number).getD 0, ⟨st0, stF⟩, results⟩⟩ :
                Chain St Res)
              = lastBlock.number := by
          simp [Chain.last_number, hlast]
        refine ⟨st0, stF, hhist, rfl, hch, hne, hlen, fun k hk => hsl k hk, rfl, ?_⟩
        rw [hlastnum]

/-- A successful `next` pull happens exactly on a non-empty range and is a
successful `execute_range` call. -/
theorem BackfillJob.next_ok_spec {j : BackfillJob St Res} {clock : Nat → Nat}
    {chain : Chain St Res} {j' : BackfillJob St Res}
    (h : j.next clock = (some (.ok chain), j')) :
    j.range.1 ≤ j.range.2 ∧ j.execute_range clock = .ok (chain, j') := by
  unfold BackfillJob.next at h
  split at h
  · exact absurd h (by simp)
  · rename_i hle
    refine ⟨by omega, ?_⟩
    split at h
    · rename_i chain2 j2 heq
      simp only [Prod.mk.injEq, Option.some.injEq, Except.ok.injEq] at h
      obtain ⟨h1, h2⟩ := h
      rw [heq, h1, h2]
    · exact absurd h (by simp)

/-- A `next` pull that yields an error leaves the job exactly as it was,
and the error is the one `execute_range` returned. -/
theorem BackfillJob.next_error_spec {j : BackfillJob St Res} {clock : Nat → Nat}
    {e : BlockExecutionError} (h : (j.next clock).1 = some (.error e)) :
    j.next clock = (some (.error e), j) := by
  unfold BackfillJob.next at h ⊢
  split at h
  · exact absurd h (by simp)
  · rename_i hle
    split at h
    · exact absurd h (by simp)
    · rename_i e2 heq
      have he : e2 = e := by simpa using h
      rw [he, if_neg hle]

/-- If the block numbers reported by the provider are truthful, `recovered_block` agrees
with `sealed_block_with_senders`, and the historical states advance by
execution (the State Provider contract of §6 of the spec), then for every
position `k` of a chained execution fetched at contiguous numbers starting
at `n0`, `SingleBlockBackfillJob::execute_block` on the number of that block
reproduces exactly the same per-block result and the same state transition
(its fresh parent snapshot is the accumulated state of the multi-block executor
before that block). -/
theorem single_trace_aux (sj : SingleBlockBackfillJob St Res) :
    ∀ (nb : List Block) (nr : List Res) (st0 stF : St) (n0 : Nat),
      (∀ k (hk : k < nb.length),
        sj.provider.sealed_block_with_senders (n0 + k) = .ok (some (nb.get ⟨k, hk⟩))) →
      (∀ n b, n0 ≤ n → n < n0 + nb.length →
        sj.provider.sealed_block_with_senders n = .ok (some b) →
        b.number = n ∧ sj.provider.recovered_block n = .ok (some b)) →
      (∀ n st b r st', n0 ≤ n → n < n0 + nb.length →
        sj.provider.history_by_block_number (n - 1) = .ok st →
        sj.provider.sealed_block_with_senders n = .ok (some b) →
        sj.evm_config.executeOne b st = .ok (r, st') →
        sj.provider.history_by_block_number n = .ok st') →
      sj.provider.history_by_block_number (n0 - 1) = .ok st0 →
      ChainedExec sj.evm_config st0 nb nr stF →
      ∀ k (hk : k < nb.length) (hk2 : k < nr.length),
        ∃ pre post,
          sj.execute_block (nb.get ⟨k, hk⟩).number
            = .ok (nb.get ⟨k, hk⟩, ⟨⟨pre, post⟩, nr.get ⟨k, hk2⟩⟩) ∧
          ChainedExec sj.evm_config st0 (nb.take k) (nr.take k) pre ∧
          sj.evm_config.executeOne (nb.get ⟨k, hk⟩) pre
            = .ok (nr.get ⟨k, hk2⟩, post) := by
  intro nb
  induction nb with
  | nil =>
    intro nr st0 stF n0 _ _ _ _ _ k hk _
    exact absurd hk (by simp)
  | cons b0 nbt ih =>
    intro nr st0 stF n0 hseal hwfn hwfh hhist hchain k hk hk2
    cases hchain with
    | cons hexec0 hrest =>
      rename_i st1 r0 nrt
      have hs0 : sj.provider.sealed_block_with_senders n0 = .ok (some b0) := by
        simpa using hseal 0 (by simp)
      obtain ⟨hnum, hrec⟩ :=
        hwfn n0 b0 (Nat.le_refl n0) (by simp only [List.length_cons]; omega) hs0
      match k with
      | 0 =>
        refine ⟨st0, st1, ?_, ChainedExec.nil st0, hexec0⟩
        show sj.execute_block b0.number = _
        rw [hnum]
        simp only [SingleBlockBackfillJob.execute_block, hrec, hhist, hexec0]
        rfl
      | k + 1 =>
        have hk' : k < nbt.length := by simpa using hk
        have hk2' : k < nrt.length := by simpa using hk2
        have hhist1 : sj.provider.history_by_block_number (n0 + 1 - 1) = .ok st1 := by
          have := hwfh n0 st0 b0 r0 st1 (Nat.le_refl n0)
            (by simp only [List.length_cons]; omega) hhist hs0 hexec0
          simpa using this
        have hseal' : ∀ k (hk : k < nbt.length),
            sj.provider.sealed_block_with_senders (n0 + 1 + k)
              = .ok (some (nbt.get ⟨k, hk⟩)) := by
          intro i hi
          have := hseal (i + 1) (by simp only [List.length_cons]; omega)
          rw [show n0 + (i + 1) = n0 + 1 + i by omega] at this
          exact this
        have hwfn' : ∀ n b, n0 + 1 ≤ n → n < n0 + 1 + nbt.length →
            sj.provider.sealed_block_with_senders n = .ok (some b) →
            b.number = n ∧ sj.provider.recovered_block n = .ok (some b) := by
          intro n b h1 h2 h3
          exact hwfn n b (by omega) (by simp only [List.length_cons]; omega) h3
        have hwfh' : ∀ n st b r st', n0 + 1 ≤ n → n < n0 + 1 + nbt.length →
            sj.provider.history_by_block_number (n - 1) = .ok st →
            sj.provider.sealed_block_with_senders n = .ok (some b) →
            sj.evm_config.executeOne b st = .ok (r, st') →
            sj.provider.history_by_block_number n = .ok st' := by
          intro n st b r st' h1 h2 h3 h4 h5
          exact hwfh n st b r st' (by omega) (by simp only [List.length_cons]; omega) h3 h4 h5
        obtain ⟨pre, post, hexe, hch, hstep⟩ :=
          ih nrt st1 stF (n0 + 1) hseal' hwfn' hwfh' hhist1 hrest k hk' hk2'
        refine ⟨pre, post, hexe, ?_, hstep⟩
        rw [List.take_succ_cons, List.take_succ_cons]
        exact ChainedExec.cons hexec0 hch

/-! ## Claim theorems -/

/-- Claim C1: over the same provider and EVM configuration, whenever the
multi-block `BackfillJob::next` yields a chain, the single-block job
(`into_single_blocks`, same provider and EVM configuration) yields, for each
block of that chain taken block by block, exactly the same execution output:
the same per-block result (receipts) and the same state delta — the fresh
parent snapshot the single-block job fetches coincides with the multi-block
accumulated state of the multi-block executor before that block, and the post-state with its
state after it. The hypotheses are the provider contract of §6: block
lookups return the block of the requested number, `recovered_block` agrees
with `sealed_block_with_senders`, and historical state reflects execution of
all ancestors. -/
theorem backfill_single_multi_agree (j : BackfillJob St Res) (clock : Nat → Nat)
    (chain : Chain St Res) (j' : BackfillJob St Res)
    (hwfn : ∀ n b, j.range.1 ≤ n → n ≤ j.range.2 →
      j.provider.sealed_block_with_senders n = .ok (some b) →
      b.number = n ∧ j.provider.recovered_block n = .ok (some b))
    (hwfh : ∀ n st b r st', j.range.1 ≤ n → n ≤ j.range.2 →
      j.provider.history_by_block_number (n - 1) = .ok st →
      j.provider.sealed_block_with_senders n = .ok (some b) →
      j.evm_config.executeOne b st = .ok (r, st') →
      j.provider.history_by_block_number n = .ok st')
    (hnext : j.next clock = (some (.ok chain), j')) :
    chain.outcome.results.length = chain.blocks.length ∧
    ∀ k (hk : k < chain.blocks.length) (hk2 : k < chain.outcome.results.length),
      ∃ pre post,
        (j.into_single_blocks).execute_block (chain.blocks.get ⟨k, hk⟩).number
          = .ok (chain.blocks.get ⟨k, hk⟩,
              ⟨⟨pre, post⟩, chain.outcome.results.get ⟨k, hk2⟩⟩) ∧
        ChainedExec j.evm_config chain.outcome.bundle.init
          (chain.blocks.take k) (chain.outcome.results.take k) pre ∧
        j.evm_config.executeOne (chain.blocks.get ⟨k, hk⟩) pre
          = .ok (chain.outcome.results.get ⟨k, hk2⟩, post) := by
  obtain ⟨hne, hexr⟩ := BackfillJob.next_ok_spec hnext
  obtain ⟨st0, stF, hhist, hbundle, hch, hnonempty, hlen, hsl, hfirst, hj'⟩ :=
    BackfillJob.execute_range_ok_spec hexr
  refine ⟨hch.length_eq, ?_⟩
  intro k hk hk2
  have hres := single_trace_aux (j.into_single_blocks) chain.blocks chain.outcome.results
    st0 stF j.range.1
    (fun i hi => hsl i hi)
    (fun n b h1 h2 h3 => hwfn n b h1 (by omega) h3)
    (fun n st b r st' h1 h2 h3 h4 h5 => hwfh n st b r st' h1 (by omega) h3 h4 h5)
    hhist hch k hk hk2
  rw [hbundle]
  exact hres

/-- Witness for C1 on the concrete one-block demo model: the single-block
job run at block 1 reproduces the block, result and state delta of the chain
the multi-block `demoJob` yields. -/
theorem backfill_single_multi_agree_witness :
    demoChain.outcome.results.length = demoChain.blocks.length ∧
    ∃ pre post,
      (demoJob.into_single_blocks).execute_block (demoBlock 1).number
        = .ok (demoBlock 1, ⟨⟨pre, post⟩, 1⟩) ∧
      ChainedExec demoEvm demoChain.outcome.bundle.init [] [] pre ∧
      demoEvm.executeOne (demoBlock 1) pre = .ok (1, post) := by
  have hwfn : ∀ n b, demoJob.range.1 ≤ n → n ≤ demoJob.range.2 →
      demoJob.provider.sealed_block_with_senders n = .ok (some b) →
      b.number = n ∧ demoJob.provider.recovered_block n = .ok (some b) := by
    intro n b h1 h2 h3
    have hn : n = 1 := by
      simp only [demoJob] at h1 h2
      omega
    subst hn
    have hb : demoBlock 1 = b := by
      have h0 : demoJob.provider.sealed_block_with_senders 1
          = .ok (some (demoBlock 1)) := rfl
      simpa using h0.symm.trans h3
    subst hb
    exact ⟨rfl, rfl⟩
  have hwfh : ∀ n st b r st', demoJob.range.1 ≤ n → n ≤ demoJob.range.2 →
      demoJob.provider.history_by_block_number (n - 1) = .ok st →
      demoJob.provider.sealed_block_with_senders n = .ok (some b) →
      demoJob.evm_config.executeOne b st = .ok (r, st') →
      demoJob.provider.history_by_block_number n = .ok st' := by
    intro n st b r st' h1 h2 h3 h4 h5
    have hn : n = 1 := by
      simp only [demoJob] at h1 h2
      omega
    subst hn
    have hst : (0 : Nat) = st := by
      have h0 : demoJob.provider.history_by_block_number 0 = .ok 0 := rfl
      simpa using h0.symm.trans h3
    have hb : demoBlock 1 = b := by
      have h0 : demoJob.provider.sealed_block_with_senders 1
          = .ok (some (demoBlock 1)) := rfl
      simpa using h0.symm.trans h4
    subst hst hb
    have h0 : demoJob.evm_config.executeOne (demoBlock 1) 0 = .ok (1, 1) := rfl
    have h6 := Except.ok.inj (h0.symm.trans h5)
    have hr : (1 : Nat) = r := congrArg Prod.fst h6
    have hst' : (1 : Nat) = st' := congrArg Prod.snd h6
    subst hr hst'
    rfl
  have h := backfill_single_multi_agree demoJob fastClock demoChain demoJobAfter
    hwfn hwfh rfl
  exact ⟨h.1, h.2 0 (by simp [demoChain]) (by simp [demoChain])⟩

/-- Claim C2: every chain yielded successfully by `BackfillJob::next`
contains at least one block — thresholds are only evaluated after a block
has been executed and pushed, so even a threshold configuration that the
very first block trips ends the batch with that block included; and the
outcome carries exactly one result per block. The statement is universal
over all threshold configurations, including ones exceeded by the first
block alone. -/
theorem backfill_batch_nonempty (j : BackfillJob St Res) (clock : Nat → Nat)
    (chain : Chain St Res) (j' : BackfillJob St Res)
    (h : j.next clock = (some (.ok chain), j')) :
    chain.blocks ≠ [] ∧ chain.outcome.results.length = chain.blocks.length := by
  obtain ⟨-, hexr⟩ := BackfillJob.next_ok_spec h
  obtain ⟨st0, stF, -, -, hch, hne, -, -, -, -⟩ := BackfillJob.execute_range_ok_spec hexr
  exact ⟨hne, hch.length_eq⟩

/-- Witness for C2: `tripJob` has `max_blocks = 1` and a cumulative-gas
limit of 1 that its first 100-gas block alone exceeds, yet its first yielded
chain still contains that block. -/
theorem backfill_batch_nonempty_witness :
    tripChain.blocks ≠ [] ∧
    tripChain.outcome.results.length = tripChain.blocks.length :=
  backfill_batch_nonempty tripJob fastClock tripChain
    ⟨demoEvm, demoProvider, ⟨some 1, none, some 1, none⟩, (2, 2), 1⟩ rfl

/-- Claim C3: when a `next` pull of the multi-block job yields an error, the
job — in particular its `range` field, whose start still names the failed
first block of the failed batch — is exactly what it was before the call, so retrying
the same call re-attempts from the same position; the range advances only on
a successful yield. -/
theorem backfill_range_unchanged_on_error (j : BackfillJob St Res) (clock : Nat → Nat)
    (e : BlockExecutionError) (h : (j.next clock).1 = some (.error e)) :
    (j.next clock).2 = j ∧ (j.next clock).2.range = j.range ∧
    (j.next clock).2.next clock = j.next clock := by
  have h2 := BackfillJob.next_error_spec h
  refine ⟨by rw [h2], by rw [h2], ?_⟩
  conv_lhs => rw [h2]

/-- Witness for C3: `errJob` fails its first fetch with `HeaderNotFound 1`;
after the failing pull the job, and in particular its range `1..=5`, is
unchanged and a retry repeats the very same call. -/
theorem backfill_range_unchanged_on_error_witness :
    (errJob.next fastClock).2 = errJob ∧
    (errJob.next fastClock).2.range = errJob.range ∧
    (errJob.next fastClock).2.next fastClock = errJob.next fastClock :=
  backfill_range_unchanged_on_error errJob fastClock (.other (.headerNotFound 1)) rfl

/-- Claim C5: the multi-block job is a lazy finite sequence over its range:
`next` yields `None` exactly when the remaining range is empty; a successful
yield of a chain ending at block `L` sets the remaining range to
`L + 1 ..= end` (end unchanged); and — under the provider contract that
blocks carry their requested number — the range strictly shrinks, so
iteration over any finite range terminates. -/
theorem backfill_lazy_finite_sequence (j : BackfillJob St Res) (clock : Nat → Nat) :
    ((j.next clock).1 = none ↔ j.range.2 < j.range.1) ∧
    (∀ chain j', j.next clock = (some (.ok chain), j') →
      j'.range = (chain.last_number + 1, j.range.2)) ∧
    ((∀ n b, j.provider.sealed_block_with_senders n = .ok (some b) → b.number = n) →
      ∀ chain j', j.next clock = (some (.ok chain), j') →
        j.range.1 < j'.range.1 ∧ j'.range.2 = j.range.2 ∧
        j.range.2 + 1 - j'.range.1 < j.range.2 + 1 - j.range.1) := by
  refine ⟨⟨?_, ?_⟩, ?_, ?_⟩
  · intro h
    by_contra hlt
    unfold BackfillJob.next at h
    rw [if_neg hlt] at h
    split at h <;> simp at h
  · intro h
    unfold BackfillJob.next
    rw [if_pos h]
  · intro chain j' h
    obtain ⟨-, hexr⟩ := BackfillJob.next_ok_spec h
    obtain ⟨st0, stF, -, -, -, -, -, -, -, hj'⟩ := BackfillJob.execute_range_ok_spec hexr
    rw [hj']
  · intro hnum chain j' h
    obtain ⟨hner, hexr⟩ := BackfillJob.next_ok_spec h
    obtain ⟨st0, stF, -, -, -, hnonempty, hlen, hsl, -, hj'⟩ :=
      BackfillJob.execute_range_ok_spec hexr
    have hlpos : 0 < chain.blocks.length := List.length_pos.mpr hnonempty
    have hidx : chain.blocks.length - 1 < chain.blocks.length := by omega
    have hgl : chain.blocks.getLast?
        = some (chain.blocks.get ⟨chain.blocks.length - 1, hidx⟩) := by
      rw [List.getLast?_eq_getElem?, List.getElem?_eq_getElem hidx,
        List.get_eq_getElem]
    have hlastnum : chain.last_number
        = (chain.blocks.get ⟨chain.blocks.length - 1, hidx⟩).number := by
      simp [Chain.last_number, hgl]
    have hnumlast := hnum _ _ (hsl (chain.blocks.length - 1) hidx)
    have hr1 : j'.range.1 = chain.last_number + 1 := by rw [hj']
    have hr2 : j'.range.2 = j.range.2 := by rw [hj']
    rw [hr1, hr2, hlastnum, hnumlast]
    omega

/-- Witness for C5 on the demo model: the pull over `1..=1` yields the chain
ending at block 1 and leaves the range `2..=1` (empty), strictly smaller. -/
theorem backfill_lazy_finite_sequence_witness :
    demoJobAfter.range = (demoChain.last_number + 1, demoJob.range.2) ∧
    demoJob.range.1 < demoJobAfter.range.1 := by
  have h := backfill_lazy_finite_sequence demoJob fastClock
  have hnum : ∀ n b, demoJob.provider.sealed_block_with_senders n = .ok (some b) →
      b.number = n := by
    intro n b hb
    simp only [demoJob, demoProvider] at hb
    split at hb
    · have hbb : demoBlock n = b := Option.some.inj (Except.ok.inj hb)
      rw [← hbb]
      rfl
    · exact absurd hb (by simp)
  exact ⟨h.2.1 demoChain demoJobAfter rfl,
    (h.2.2 hnum demoChain demoJobAfter rfl).1⟩

/-- Claim C6: each multi-block batch starts by obtaining a single historical
snapshot as of `range.start - 1`, before any block is fetched or executed:
if that snapshot is unavailable, `next` yields exactly the provider-class
error, the job is untouched, and the outcome does not depend on the block
source or the EVM at all (no block fetched, none executed); on a successful
batch the snapshot read becomes the base of the yielded bundle. -/
theorem backfill_parent_snapshot_first (j : BackfillJob St Res) (clock : Nat → Nat)
    (hne : j.range.1 ≤ j.range.2) :
    (∀ pe, j.provider.history_by_block_number (j.range.1 - 1) = .error pe →
      j.next clock = (some (.error (.other pe)), j) ∧
      ∀ (evm2 : EvmConfig St Res) (sb rb : Nat → Except ProviderError (Option Block)),
        (({ j with
            evm_config := evm2
            provider := ⟨j.provider.history_by_block_number, sb, rb⟩ } :
              BackfillJob St Res).next clock).1
          = some (.error (.other pe))) ∧
    (∀ chain j', j.next clock = (some (.ok chain), j') →
      j.provider.history_by_block_number (j.range.1 - 1)
        = .ok chain.outcome.bundle.init) := by
  constructor
  · intro pe hpe
    constructor
    · have hex : j.execute_range clock = .error (.other pe) := by
        unfold BackfillJob.execute_range
        rw [hpe]
      unfold BackfillJob.next
      rw [if_neg (by omega), hex]
    · intro evm2 sb rb
      have hex : ({ j with
          evm_config := evm2
          provider := ⟨j.provider.history_by_block_number, sb, rb⟩ } :
            BackfillJob St Res).execute_range clock = .error (.other pe) := by
        unfold BackfillJob.execute_range
        simp only
        rw [hpe]
      unfold BackfillJob.next
      rw [if_neg (by simp only; omega), hex]
  · intro chain j' h
    obtain ⟨-, hexr⟩ := BackfillJob.next_ok_spec h
    obtain ⟨st0, stF, hhist, hbundle, -, -, -, -, -, -⟩ :=
      BackfillJob.execute_range_ok_spec hexr
    rw [hbundle]
    exact hhist

/-- Witness for C6: `histErrJob` (history unavailable everywhere, range
`1..=3`) yields exactly the provider error and stays unchanged. -/
theorem backfill_parent_snapshot_first_witness :
    histErrJob.next fastClock = (some (.error (.other (.database 7))), histErrJob) :=
  ((backfill_parent_snapshot_first histErrJob fastClock (by decide)).1
    (.database 7) rfl).1

/-- Claim C7: a missing block is `HeaderNotFound`, never skipped. For the
single-block shape, an absent block at `n` makes `execute_block n` fail with
exactly `HeaderNotFound n`. For the multi-block shape, every block number
covered by a successfully yielded chain had a present block (no gap is ever
silently jumped over), and a batch whose first block is absent yields
exactly `HeaderNotFound` for it (with the job unchanged). -/
theorem missing_block_is_error_not_skipped :
    (∀ (sj : SingleBlockBackfillJob St Res) (n : Nat),
      sj.provider.recovered_block n = .ok none →
      sj.execute_block n = .error (.other (.headerNotFound n))) ∧
    (∀ (j : BackfillJob St Res) (clock : Nat → Nat) (chain : Chain St Res)
        (j' : BackfillJob St Res),
      j.next clock = (some (.ok chain), j') →
      ∀ k, k < chain.blocks.length →
        ∃ b, j.provider.sealed_block_with_senders (j.range.1 + k) = .ok (some b)) ∧
    (∀ (j : BackfillJob St Res) (clock : Nat → Nat) (st0 : St),
      j.range.1 ≤ j.range.2 →
      j.provider.history_by_block_number (j.range.1 - 1) = .ok st0 →
      j.provider.sealed_block_with_senders j.range.1 = .ok none →
      j.next clock = (some (.error (.other (.headerNotFound j.range.1))), j)) := by
  refine ⟨?_, ?_, ?_⟩
  · intro sj n h
    unfold SingleBlockBackfillJob.execute_block
    rw [h]
  · intro j clock chain j' h k hk
    obtain ⟨-, hexr⟩ := BackfillJob.next_ok_spec h
    obtain ⟨st0, stF, -, -, -, -, -, hsl, -, -⟩ := BackfillJob.execute_range_ok_spec hexr
    exact ⟨chain.blocks.get ⟨k, hk⟩, hsl k hk⟩
  · intro j clock st0 hne hh hs
    have hex : j.execute_range clock = .error (.other (.headerNotFound j.range.1)) := by
      unfold BackfillJob.execute_range
      rw [hh]
      have hcnt : j.range.2 + 1 - j.range.1 = (j.range.2 - j.range.1) + 1 := by omega
      rw [hcnt, List.range'_succ]
      simp only [execBatchLoop, hs]
    unfold BackfillJob.next
    rw [if_neg (by omega), hex]

/-- Witness for C7: the blockless provider makes the single-block job fail
with `HeaderNotFound 1` at block 1, and makes the multi-block job over
`1..=5` yield exactly `HeaderNotFound 1` without advancing. -/
theorem missing_block_is_error_not_skipped_witness :
    errSingleJob.execute_block 1 = .error (.other (.headerNotFound 1)) ∧
    errJob.next fastClock = (some (.error (.other (.headerNotFound 1))), errJob) := by
  have h := @missing_block_is_error_not_skipped Nat Nat
  exact ⟨h.1 errSingleJob 1 rfl, h.2.2 errJob fastClock 0 (by decide) rfl rfl⟩

/-- Claim C8: the single-block job yields exactly one
`(block, BlockExecutionOutput)` item per advanced block number — `next` on a
non-empty range is precisely `execute_block` at the range's start, with the
start advanced by one — and each successful `execute_block n` fetched its own
fresh parent snapshot as of `n - 1` which became the pre-state of the output (no
state carried over from other blocks). The `SingleBlockBackfillJob`
structure carries no thresholds at all, exactly as in the source, so no
batch threshold is consulted anywhere in this contract. -/
theorem single_block_job_contract (sj : SingleBlockBackfillJob St Res) :
    (sj.range.2 < sj.range.1 → sj.next = (none, sj)) ∧
    (sj.range.1 ≤ sj.range.2 →
      sj.next = (some (sj.execute_block sj.range.1),
        { sj with range := (sj.range.1 + 1, sj.range.2) })) ∧
    (∀ n b out, sj.execute_block n = .ok (b, out) →
      sj.provider.recovered_block n = .ok (some b) ∧
      sj.provider.history_by_block_number (n - 1) = .ok out.state.init ∧
      sj.evm_config.executeOne b out.state.init = .ok (out.result, out.state.final)) := by
  refine ⟨?_, ?_, ?_⟩
  · intro h
    unfold SingleBlockBackfillJob.next
    rw [if_pos h]
  · intro h
    unfold SingleBlockBackfillJob.next
    rw [if_neg (by omega)]
  · intro n b out h
    unfold SingleBlockBackfillJob.execute_block at h
    split at h
    · exact absurd h (by simp)
    · exact absurd h (by simp)
    · rename_i bws hrecov
      split at h
      · exact absurd h (by simp)
      · rename_i st0 hh
        split at h
        · exact absurd h (by simp)
        · rename_i res st1 hex
          simp only [Except.ok.injEq, Prod.mk.injEq] at h
          obtain ⟨hb, hout⟩ := h
          subst hb hout
          exact ⟨hrecov, hh, hex⟩

/-- Witness for C8: on the demo model, the single-block job over `1..=1`
yields exactly `execute_block 1` and advances to `2..=1`; and the successful
`execute_block 1` read the fresh snapshot at block 0 as its pre-state. -/
theorem single_block_job_contract_witness :
    (demoJob.into_single_blocks).next
      = (some ((demoJob.into_single_blocks).execute_block 1),
        ⟨demoEvm, demoProvider, (2, 1), 1⟩) ∧
    demoProvider.recovered_block 1 = .ok (some (demoBlock 1)) ∧
    demoProvider.history_by_block_number 0 = .ok 0 ∧
    demoEvm.executeOne (demoBlock 1) 0 = .ok (1, 1) := by
  have h := single_block_job_contract (demoJob.into_single_blocks)
  exact ⟨h.2.1 (by decide), h.2.2 1 (demoBlock 1) ⟨⟨0, 1⟩, 1⟩ rfl⟩

/-- Claim C10: the single-block job consumes the next block number from the
range before executing it, so a call on a non-empty range always advances the
range's start by one — also when it yields an `Err`: after a failure at block
`b` the next call proceeds with `b + 1`, unlike the unchanged-range retry
behaviour of the multi-block shape. -/
theorem single_block_job_advances_on_error (sj : SingleBlockBackfillJob St Res)
    (h : sj.range.1 ≤ sj.range.2) :
    (sj.next).2.range = (sj.range.1 + 1, sj.range.2) ∧
    (sj.next).1 = some (sj.execute_block sj.range.1) ∧
    (∀ e, sj.execute_block sj.range.1 = .error e →
      (sj.next).1 = some (.error e) ∧
      (sj.next).2.range = (sj.range.1 + 1, sj.range.2)) := by
  have hn : sj.next = (some (sj.execute_block sj.range.1),
      { sj with range := (sj.range.1 + 1, sj.range.2) }) := by
    unfold SingleBlockBackfillJob.next
    rw [if_neg (by omega)]
  refine ⟨by rw [hn], by rw [hn], ?_⟩
  intro e he
  rw [hn, he]
  exact ⟨rfl, rfl⟩

/-- Witness for C10: the blockless single-block job over `1..=5` fails at
block 1 with `HeaderNotFound` yet its range has advanced to `2..=5`. -/
theorem single_block_job_advances_on_error_witness :
    (errSingleJob.next).1 = some (.error (.other (.headerNotFound 1))) ∧
    (errSingleJob.next).2.range = (2, 5) := by
  have h := single_block_job_advances_on_error errSingleJob (by decide)
  exact h.2.2 (.other (.headerNotFound 1)) rfl

/-- With the wall-clock limit disabled, `is_end_of_batch` ignores the
elapsed-time sample entirely. -/
theorem is_end_of_batch_no_duration {t : ExecutionStageThresholds}
    (h : t.max_duration = none) (a b c d1 d2 : Nat) :
    t.is_end_of_batch a b c d1 = t.is_end_of_batch a b c d2 := by
  unfold ExecutionStageThresholds.is_end_of_batch
  rw [h]
  rfl

/-- With the wall-clock limit disabled, the batch loop is independent of the
observed wall-clock readings. -/
theorem execBatchLoop_clock_irrel (evm : EvmConfig St Res) (p : Provider St)
    {t : ExecutionStageThresholds} (h : t.max_duration = none) (s : Nat)
    (clock1 clock2 : Nat → Nat) :
    ∀ (bns : List Nat) (st : St) (gas : Nat) (accB : List Block) (accR : List Res),
      execBatchLoop evm p t s clock1 bns st gas accB accR
        = execBatchLoop evm p t s clock2 bns st gas accB accR := by
  intro bns
  induction bns with
  | nil => intro st gas accB accR; rfl
  | cons bn rest ih =>
    intro st gas accB accR
    simp only [execBatchLoop]
    split
    · rfl
    · rfl
    · rename_i block hs
      split
      · rfl
      · rename_i res st' hx
        rw [is_end_of_batch_no_duration h (bn - s + 1) (evm.sizeHint st')
          (gas + block.gasUsed) (clock1 (bn - s + 1)) (clock2 (bn - s + 1))]
        split
        · rfl
        · exact ih st' (gas + block.gasUsed) (accB ++ [block]) (accR ++ [res])

/-- With the wall-clock limit disabled, `execute_range` is independent of the
observed wall-clock readings. -/
theorem execute_range_clock_irrel {j : BackfillJob St Res}
    (h : j.thresholds.max_duration = none) (clock1 clock2 : Nat → Nat) :
    j.execute_range clock1 = j.execute_range clock2 := by
  unfold BackfillJob.execute_range
  split
  · rfl
  · rename_i st0 hh
    rw [execBatchLoop_clock_irrel j.evm_config j.provider h j.range.1 clock1 clock2]

/-- With the wall-clock limit disabled, `next` is independent of the
observed wall-clock readings. -/
theorem next_clock_irrel {j : BackfillJob St Res}
    (h : j.thresholds.max_duration = none) (clock1 clock2 : Nat → Nat) :
    j.next clock1 = j.next clock2 := by
  unfold BackfillJob.next
  rw [execute_range_clock_irrel h clock1 clock2]

/-- Counterexample to C4 as stated: batch boundaries are NOT a function of
provider contents, EVM configuration and thresholds alone. `durJob` (range
`1..=2`, only a wall-clock limit of 5) partitions its range into one
two-block batch on a machine where no time elapses but into two one-block
batches on a machine where 10 units have elapsed at every sample — the code
feeds `batch_start.elapsed()`, a wall-clock reading that is not among those
inputs, into `is_end_of_batch`. -/
theorem backfill_batch_boundaries_clock_dependent :
    batchSpans (runJob 2 durJob fastClock) = [(1, 2)] ∧
    batchSpans (runJob 2 durJob slowClock) = [(1, 1), (2, 2)] ∧
    ¬ (∀ (j : BackfillJob Nat Nat) (fuel : Nat) (clock1 clock2 : Nat → Nat),
        batchSpans (runJob fuel j clock1) = batchSpans (runJob fuel j clock2)) := by
  refine ⟨by decide, by decide, fun hall => ?_⟩
  exact absurd (hall durJob 2 fastClock slowClock) (by decide)

/-- Claim C4 (amended): batch boundaries of `BackfillJob` are a
deterministic function of the inputs and the threshold configuration
provided the wall-clock duration threshold is unset — two runs of the same
range with identical provider contents, EVM configuration and thresholds,
but arbitrary wall-clock behaviour, yield identical sequences of chains
(hence the same batch partition). With a duration threshold set, boundaries
additionally depend on the observed wall-clock time (see the
counterexample). -/
theorem backfill_batch_boundaries_deterministic_without_duration :
    ∀ (fuel : Nat) (j : BackfillJob St Res), j.thresholds.max_duration = none →
      ∀ (clock1 clock2 : Nat → Nat),
        runJob fuel j clock1 = runJob fuel j clock2 := by
  intro fuel
  induction fuel with
  | zero => intro j h clock1 clock2; rfl
  | succ fuel ih =>
    intro j h clock1 clock2
    simp only [runJob]
    rw [next_clock_irrel h clock1 clock2]
    cases hn : j.next clock2 with
    | mk o j2 =>
      cases o with
      | none => rfl
      | some r =>
        cases r with
        | error e => rfl
        | ok c =>
          obtain ⟨-, hexr⟩ := BackfillJob.next_ok_spec hn
          obtain ⟨st0, stF, -, -, -, -, -, -, -, hj2⟩ :=
            BackfillJob.execute_range_ok_spec hexr
          have h2 : j2.thresholds.max_duration = none := by rw [hj2]; exact h
          exact congrArg (fun l => Except.ok c :: l) (ih j2 h2 clock1 clock2)

/-- Witness for the amended C4: with every limit disabled, the run over
`1..=2` yields the same chains under the never-advancing and the slow
clock. -/
theorem backfill_batch_boundaries_deterministic_without_duration_witness :
    runJob 2 noDurJob fastClock = runJob 2 noDurJob slowClock :=
  backfill_batch_boundaries_deterministic_without_duration 2 noDurJob rfl
    fastClock slowClock

/-- While in `Live` mode, consuming `a` ordinary live events keeps the mode
`Live` and leaves the pipeline queue untouched. -/
theorem modeTrace_live_events :
    ∀ (a n : Nat) (lq : List LiveEvent) (pq : List PipeEvent),
      modeTrace (a + n) ⟨.live, List.replicate a .event ++ lq, pq⟩
        = List.replicate a .live ++ modeTrace n ⟨.live, lq, pq⟩ := by
  intro a
  induction a with
  | zero => intro n lq pq; simp
  | succ a ih =>
    intro n lq pq
    have hstep : orchStep ⟨.live, List.replicate (a + 1) .event ++ lq, pq⟩
        = (.engineHandler, ⟨.live, List.replicate a .event ++ lq, pq⟩) := by
      rw [List.replicate_succ, List.cons_append]
      rfl
    rw [show a + 1 + n = (a + n) + 1 by omega]
    simp only [modeTrace, hstep]
    rw [ih n lq pq, List.replicate_succ, List.cons_append]

/-- While in `Backfilling` mode, consuming `b` progress reports keeps the
mode `Backfilling` and leaves the live queue untouched. -/
theorem modeTrace_pipe_progress :
    ∀ (b n : Nat) (lq : List LiveEvent) (pq : List PipeEvent),
      modeTrace (b + n) ⟨.backfilling, lq, List.replicate b .progress ++ pq⟩
        = List.replicate b .backfilling ++ modeTrace n ⟨.backfilling, lq, pq⟩ := by
  intro b
  induction b with
  | zero => intro n lq pq; simp
  | succ b ih =>
    intro n lq pq
    have hstep : orchStep ⟨.backfilling, lq, List.replicate (b + 1) .progress ++ pq⟩
        = (.pipelineSync, ⟨.backfilling, lq, List.replicate b .progress ++ pq⟩) := by
      rw [List.replicate_succ, List.cons_append]
      rfl
    rw [show b + 1 + n = (b + n) + 1 by omega]
    simp only [modeTrace, hstep]
    rw [ih n lq pq, List.replicate_succ, List.cons_append]

/-- A run of trace entries equal to the current mode contributes no
`src → dst` switch, unless that mode were both source and target. -/
theorem countSwitches_skip (src dst m : SyncMode) (h : ¬(m = src ∧ m = dst)) :
    ∀ (n : Nat) (rest : List SyncMode),
      countSwitches src dst m (List.replicate n m ++ rest)
        = countSwitches src dst m rest := by
  intro n
  induction n with
  | zero => intro rest; simp
  | succ n ih =>
    intro rest
    rw [List.replicate_succ, List.cons_append]
    simp only [countSwitches]
    rw [if_neg h, ih rest, Nat.zero_add]

/-- A trace that only repeats the current mode contains no switch at all
(for distinct source and target). -/
theorem countSwitches_replicate (src dst m : SyncMode) (h : ¬(m = src ∧ m = dst))
    (n : Nat) : countSwitches src dst m (List.replicate n m) = 0 := by
  have := countSwitches_skip src dst m h n []
  simpa using this

/-- Claim C9: each poll of the orchestrator drives exactly one of the two
adapters — the Engine Handler exactly in `Live` mode, the Pipeline Sync
exactly in `Backfilling` mode, and the queue of the unpolled adapter is never
touched within the same step; and a run driven through a forced gap
(`a` live events, a gap, `b` backfill progress reports, completion, `c` more
live events) produces the mode trace `Live^a, Backfilling^(b+1), Live^(c+1)`,
which exhibits exactly one `Live → Backfilling` transition followed by
exactly one `Backfilling → Live` transition before live events resume. -/
theorem orchestrator_single_adapter_and_gap_transitions :
    (∀ o : Orchestrator,
      ((orchStep o).1 = .engineHandler ↔ o.mode = .live) ∧
      ((orchStep o).1 = .pipelineSync ↔ o.mode = .backfilling) ∧
      (o.mode = .live → (orchStep o).2.pipeQueue = o.pipeQueue) ∧
      (o.mode = .backfilling → (orchStep o).2.liveQueue = o.liveQueue)) ∧
    (∀ a b c : Nat,
      modeTrace (a + b + c + 2) (gapScript a b c)
        = List.replicate a .live ++ List.replicate (b + 1) .backfilling
            ++ List.replicate (c + 1) .live ∧
      countSwitches .live .backfilling (gapScript a b c).mode
          (modeTrace (a + b + c + 2) (gapScript a b c)) = 1 ∧
      countSwitches .backfilling .live (gapScript a b c).mode
          (modeTrace (a + b + c + 2) (gapScript a b c)) = 1) := by
  constructor
  · intro o
    obtain ⟨m, lq, pq⟩ := o
    cases m
    · refine ⟨by simp [orchStep], by simp [orchStep], fun _ => ?_, fun hk => absurd hk (by simp)⟩
      cases lq with
      | nil => rfl
      | cons ev rest => cases ev <;> rfl
    · refine ⟨by simp [orchStep], by simp [orchStep], fun hk => absurd hk (by simp), fun _ => ?_⟩
      cases pq with
      | nil => rfl
      | cons ev rest => cases ev <;> rfl
  · intro a b c
    have htrace : modeTrace (a + b + c + 2) (gapScript a b c)
        = List.replicate a .live ++ List.replicate (b + 1) .backfilling
            ++ List.replicate (c + 1) .live := by
      have hone : ∀ (n : Nat) (o : Orchestrator),
          modeTrace (n + 1) o = ((orchStep o).2).mode :: modeTrace n (orchStep o).2 :=
        fun n o => rfl
      unfold gapScript
      rw [show a + b + c + 2 = a + (b + c + 2) by omega]
      rw [modeTrace_live_events a (b + c + 2)
        (LiveEvent.needBackfill :: List.replicate c LiveEvent.event)
        (List.replicate b PipeEvent.progress ++ [PipeEvent.finished])]
      have hstep1 : (orchStep ⟨.live,
          LiveEvent.needBackfill :: List.replicate c LiveEvent.event,
          List.replicate b PipeEvent.progress ++ [PipeEvent.finished]⟩).2
          = ⟨.backfilling, List.replicate c LiveEvent.event,
              List.replicate b PipeEvent.progress ++ [PipeEvent.finished]⟩ := rfl
      rw [show b + c + 2 = (b + (c + 1)) + 1 by omega]
      rw [hone (b + (c + 1)) _, hstep1]
      rw [modeTrace_pipe_progress b (c + 1) (List.replicate c LiveEvent.event)
        [PipeEvent.finished]]
      have hstep2 : (orchStep ⟨.backfilling, List.replicate c LiveEvent.event,
          [PipeEvent.finished]⟩).2
          = ⟨.live, List.replicate c LiveEvent.event, []⟩ := rfl
      rw [hone c _, hstep2]
      have hlast : modeTrace c ⟨.live, List.replicate c LiveEvent.event, []⟩
          = List.replicate c .live := by
        have := modeTrace_live_events c 0 [] []
        simpa [modeTrace] using this
      rw [hlast]
      simp [List.replicate_succ, List.append_assoc]
    refine ⟨htrace, ?_, ?_⟩
    · rw [htrace]
      show countSwitches .live .backfilling .live _ = 1
      rw [List.append_assoc,
        countSwitches_skip .live .backfilling .live (by simp) a]
      rw [List.replicate_succ, List.cons_append]
      simp only [countSwitches]
      rw [if_pos (by simp),
        countSwitches_skip .live .backfilling .backfilling (by simp) b]
      rw [List.replicate_succ]
      simp only [countSwitches]
      rw [if_neg (by simp),
        countSwitches_replicate .live .backfilling .live (by simp) c]
    · rw [htrace]
      show countSwitches .backfilling .live .live _ = 1
      rw [List.append_assoc,
        countSwitches_skip .backfilling .live .live (by simp) a]
      rw [List.replicate_succ, List.cons_append]
      simp only [countSwitches]
      rw [if_neg (by simp),
        countSwitches_skip .backfilling .live .backfilling (by simp) b]
      rw [List.replicate_succ]
      simp only [countSwitches]
      rw [if_pos (by simp),
        countSwitches_replicate .backfilling .live .live (by simp) c]

/-- Witness for C9 at the concrete scenario `a = b = c = 1`: the five-step
run through the forced gap observes the mode trace
`Live, Backfilling, Backfilling, Live, Live` with exactly one transition in
each direction, and the first poll of that run drives the Engine Handler. -/
theorem orchestrator_single_adapter_and_gap_transitions_witness :
    modeTrace 5 (gapScript 1 1 1)
      = [.live, .backfilling, .backfilling, .live, .live] ∧
    countSwitches .live .backfilling .live (modeTrace 5 (gapScript 1 1 1)) = 1 ∧
    countSwitches .backfilling .live .live (modeTrace 5 (gapScript 1 1 1)) = 1 ∧
    (orchStep (gapScript 1 1 1)).1 = .engineHandler := by
  have h := orchestrator_single_adapter_and_gap_transitions
  have h2 := h.2 1 1 1
  refine ⟨by simpa using h2.1, by simpa using h2.2.1, by simpa using h2.2.2, ?_⟩
  exact (h.1 (gapScript 1 1 1)).1.mpr rfl

end BackfillProof

